import Mathlib

/-!
Verification of the FileAI vector-store core: the ingestion pipeline
(`storeInVectorDB`), the retrieval service (`searchVectorStore`), the cascade
deletion routine (`deleteFromVectorDB`) from
`apps/web/.../documents/page.tsx`, and the chat submit handler
(`handleSubmit`) from `apps/web/.../search/page.tsx`.

Modelling conventions:
- JavaScript objects used as metadata / filters are association lists
  (`Obj`); `Obj.get` returns the first binding, and object spread
  `\x7b...a, k: v\x7d` is modelled by prepending the overriding bindings, so
  that lookup of `k` sees `v` first.
- The external vector store (`getVectorStore()`) is a parameter: an
  `Adapter` record mapping each operation's arguments to the result the
  external service would produce (`Except VSError _` models a rejected
  promise).  Each embedded function additionally returns the list of
  adapter calls it issued (its trace), so that claims about which calls
  are made can be stated.
- `randomUUID` is modelled as a fresh-identifier supply `UuidGen` (a
  counter) consumed one identifier per generated record; distinct draws
  are distinct, which models "collision probability negligible".
-/

namespace FileAI

/-- A metadata / filter value: the program stores strings (ids, filenames)
and numbers (chunkIndex, totalChunks). -/
inductive MVal
  | str (s : String)
  | num (n : Nat)
deriving DecidableEq, Repr

/-- A JavaScript object, as an association list of key/value bindings.
Earlier bindings shadow later ones (see `Obj.get`). -/
abbrev Obj := List (String × MVal)

/-- Key lookup in an object: the first binding wins. -/
def Obj.get : Obj → String → Option MVal
  | [], _ => none
  | (k, v) :: rest, key => if k = key then some v else Obj.get rest key

/-- Errors of the external services (rejected promises).  The code itself
never constructs an error; `emptyDocument` exists only so that the spec's
`EmptyDocumentError` can be talked about. -/
inductive VSError
  | storeWrite
  | storeRead
  | emptyDocument
  | generation
  | other
deriving DecidableEq, Repr

/-- A record returned by `vectorStore.search`. -/
structure SearchRecord where
  id : Nat
  content : String
  score : Int
  metadata : Obj
deriving DecidableEq, Repr

/-- A record passed to `vectorStore.upsert`. -/
structure VSRecord where
  id : Nat
  content : String
  metadata : Obj
deriving DecidableEq, Repr

/-- One call issued to the vector-store adapter. -/
inductive AdapterCall
  | search (query : String) (topK : Nat) (filter : Obj)
  | upsert (records : List VSRecord)
  | delete (ids : List Nat)
deriving DecidableEq, Repr

/-- The external vector store behind `getVectorStore()`: for each
operation, the result the external service would produce for given
arguments. -/
structure Adapter where
  searchResult : String → Nat → Obj → Except VSError (List SearchRecord)
  upsertResult : List VSRecord → Except VSError Unit
  deleteResult : List Nat → Except VSError Unit

/-- The fresh-identifier supply modelling `randomUUID`. -/
structure UuidGen where
  counter : Nat
deriving DecidableEq, Repr

/-- Metadata attached to one chunk record:
`\x7b...metadata, chunkIndex: index, totalChunks: total\x7d` — the two keys
written after the spread override any caller binding of the same name. -/
def chunkMetadata (metadata : Obj) (index total : Nat) : Obj :=
  ("chunkIndex", MVal.num index) :: ("totalChunks", MVal.num total) :: metadata

/-- The `chunks.map((chunk, index) => (\x7bid: randomUUID(), ...\x7d))` body of
`storeInVectorDB`: one record per chunk, each consuming one fresh id. -/
def mkDocumentsGo (counter total : Nat) (metadata : Obj) :
    Nat → List String → List VSRecord
  | _, [] => []
  | index, chunk :: rest =>
    { id := counter, content := chunk,
      metadata := chunkMetadata metadata index total } ::
      mkDocumentsGo (counter + 1) total metadata (index + 1) rest

/-- The prepared record batch of `storeInVectorDB`, together with the
advanced uuid supply. -/
def mkDocuments (g : UuidGen) (chunks : List String) (metadata : Obj) :
    List VSRecord × UuidGen :=
  (mkDocumentsGo g.counter chunks.length metadata 0 chunks,
   ⟨g.counter + chunks.length⟩)

/-- `storeInVectorDB(documentId, text, metadata)`: split the text, build one
record per chunk, upsert the whole batch.  `split` stands for
`textSplitter.splitText` (the shared `RecursiveCharacterTextSplitter`
instance).  Returns the overall result (errors of the awaited upsert
propagate), the trace of adapter calls, and the advanced uuid supply.
`documentId` is only used in the final `console.log`. -/
def storeInVectorDB (a : Adapter) (split : String → List String) (g : UuidGen)
    (_documentId : String) (text : String) (metadata : Obj) :
    Except VSError Unit × List AdapterCall × UuidGen :=
  let chunks := split text
  let documents := (mkDocuments g chunks metadata).1
  (a.upsertResult documents, [AdapterCall.upsert documents],
   (mkDocuments g chunks metadata).2)

/-- The search filter built by `searchVectorStore`:
`\x7b...filter, userId\x7d` — the injected `userId` binding overrides any
caller-supplied one.  A missing `filter` argument spreads as nothing. -/
def sentFilter (userId : String) (filter : Option Obj) : Obj :=
  ("userId", MVal.str userId) :: filter.getD []

/-- `searchVectorStore(query, userId, topK, filter?)`: one adapter search
with the userId-injected filter; the adapter's result is returned as is. -/
def searchVectorStore (a : Adapter) (query userId : String) (topK : Nat)
    (filter : Option Obj) : Except VSError (List SearchRecord) × List AdapterCall :=
  (a.searchResult query topK (sentFilter userId filter),
   [AdapterCall.search query topK (sentFilter userId filter)])

/-- The filter `\x7b documentId \x7d` used by `deleteFromVectorDB`. -/
def docFilter (documentId : String) : Obj :=
  [("documentId", MVal.str documentId)]

/-- The body of the `try` block of `deleteFromVectorDB`: enumerate the
document's chunks by an empty-query search with topK 1000, then delete
them when at least one was found.  Errors propagate out of the body. -/
def deleteFromVectorDBBody (a : Adapter) (documentId : String) :
    Except VSError Unit × List AdapterCall :=
  match a.searchResult "" 1000 (docFilter documentId) with
  | .error e => (.error e, [AdapterCall.search "" 1000 (docFilter documentId)])
  | .ok results =>
    let chunkIds := results.map (·.id)
    if chunkIds.length > 0 then
      match a.deleteResult chunkIds with
      | .error e =>
        (.error e, [AdapterCall.search "" 1000 (docFilter documentId),
                    AdapterCall.delete chunkIds])
      | .ok _ =>
        (.ok (), [AdapterCall.search "" 1000 (docFilter documentId),
                  AdapterCall.delete chunkIds])
    else
      (.ok (), [AdapterCall.search "" 1000 (docFilter documentId)])

/-- `deleteFromVectorDB(documentId)`: the body wrapped in the
`try ... catch` — any error is logged and swallowed (`.ok ()`), the trace
of issued calls is kept. -/
def deleteFromVectorDB (a : Adapter) (documentId : String) :
    Except VSError Unit × List AdapterCall :=
  match deleteFromVectorDBBody a documentId with
  | (.error _, trace) => (.ok (), trace)
  | (.ok _, trace) => (.ok (), trace)

/-- An adapter respects filters when every record returned by a search
carries metadata agreeing with every binding of the search filter. -/
def FilterRespecting (a : Adapter) : Prop :=
  ∀ q k f rs, a.searchResult q k f = .ok rs →
    ∀ r ∈ rs, ∀ key v, Obj.get f key = some v → Obj.get r.metadata key = some v

/-! ## The chat submit handler (search/page.tsx) -/

/-- A chat message role. -/
inductive Role
  | user
  | assistant
deriving DecidableEq, Repr

/-- A message of the search page's `messages` state: role, content and
cited sources (empty on user messages). -/
structure ChatMsg where
  role : Role
  content : String
  sources : List SearchRecord
deriving DecidableEq, Repr

/-- The value resolved by `sendMessageMutation.mutateAsync`. -/
structure SendResult where
  message : String
  sources : List SearchRecord
deriving DecidableEq, Repr

/-- The local state `handleSubmit` manipulates: the `messages` list and
`currentChatId`. -/
structure UIState where
  messages : List ChatMsg
  currentChatId : Option String
deriving DecidableEq, Repr

/-- The predicate of the rollback filter in the `catch` branch of
`handleSubmit`: a pair `(idx, msg)` is removed exactly when `msg` is a
user message whose content is the submitted query and `idx` is the last
index of the list being filtered. -/
def isOrphanHit (userQuery : String) (lastIdx : Nat) (p : Nat × ChatMsg) : Bool :=
  p.2.role == Role.user && p.2.content == userQuery && p.1 == lastIdx

/-- The rollback
`prev.filter((msg, idx) => !(msg.role === "user" && msg.content === userQuery && idx === prev.length - 1))`. -/
def removeOrphan (userQuery : String) (prev : List ChatMsg) : List ChatMsg :=
  ((prev.enum).filter (fun p => !(isOrphanHit userQuery (prev.length - 1) p))).map
    Prod.snd

/-- `handleSubmit` of the search page, after the early-return guard, for a
non-empty trimmed `userQuery`.  `newId` is the id the (assumed
successful) `createChatMutation` returns when no chat is active; on that
path the local messages are cleared before the user message is appended.
`send` is the outcome of `sendMessageMutation.mutateAsync`: on success the
assistant message is appended, on error the `catch` branch removes the
just-appended user message. -/
def handleSubmit (st : UIState) (userQuery newId : String)
    (send : Except VSError SendResult) : UIState :=
  let chatId := match st.currentChatId with
    | some cid => cid
    | none => newId
  let msgs0 := match st.currentChatId with
    | some _ => st.messages
    | none => []
  let userMessage : ChatMsg := ⟨Role.user, userQuery, []⟩
  let msgs1 := msgs0 ++ [userMessage]
  match send with
  | .ok result =>
    { messages := msgs1 ++ [⟨Role.assistant, result.message, result.sources⟩],
      currentChatId := some chatId }
  | .error _ =>
    { messages := removeOrphan userQuery msgs1, currentChatId := some chatId }

/-! ## The chunker (spec §4.1)

Modelled from the spec: the chunker the ingestion pipeline uses is the
external `RecursiveCharacterTextSplitter` from `langchain/textsplitters`,
constructed with the shared `CHUNK_SIZE` / `CHUNK_OVERLAP` constants; its
implementation is not part of this repository.  Following §4.1, `split`
is a pure function producing, in document order, segments of at most
`chunkSize` characters such that each segment after the first repeats the
last `chunkOverlap` characters of its predecessor, so the text advances by
`chunkSize - chunkOverlap` characters per segment. -/

/-- Modelled from the spec: `split(text)` of §4.1 — the fixed-size
overlapping-window chunker standing for the external
`RecursiveCharacterTextSplitter.splitText`.  Empty text yields no chunks;
the degenerate configuration `chunkSize ≤ chunkOverlap` (excluded by the
configuration contract) yields the whole text as one chunk. -/
def splitText (chunkSize chunkOverlap : Nat) (text : List Char) :
    List (List Char) :=
  if _h1 : text.length ≤ chunkSize then
    if text.isEmpty then [] else [text]
  else if _h2 : chunkSize ≤ chunkOverlap then [text]
  else
    text.take chunkSize ::
      splitText chunkSize chunkOverlap (text.drop (chunkSize - chunkOverlap))
termination_by text.length
decreasing_by
  simp only [List.length_drop]
  omega

/-- Concatenate the tails of the later chunks: each chunk after its
predecessor contributes everything past the shared overlap. -/
def dropOverlapJoin (chunkOverlap : Nat) : List (List Char) → List Char
  | [] => []
  | c :: cs => c.drop chunkOverlap ++ dropOverlapJoin chunkOverlap cs

/-- Reassemble a chunk sequence: the first chunk in full, every later
chunk minus the configured overlap. -/
def reassemble (chunkOverlap : Nat) : List (List Char) → List Char
  | [] => []
  | c :: cs => c ++ dropOverlapJoin chunkOverlap cs

/-- A test adapter: every operation succeeds, searches return no hits. -/
def okAdapter : Adapter where
  searchResult := fun _ _ _ => .ok []
  upsertResult := fun _ => .ok ()
  deleteResult := fun _ => .ok ()

/-- `okAdapter` respects filters (vacuously: it returns no records). -/
lemma okAdapter_filterRespecting : FilterRespecting okAdapter := by
  intro q k f rs h r hr
  simp only [okAdapter] at h
  cases h
  simp at hr

end FileAI

namespace FileAI

/-! ## Claims -/

/-- C2: `deleteFromVectorDB` returns normally for every adapter behaviour
and every documentId: each error of the enumerate/delete body is caught
by the surrounding `try`/`catch` and swallowed. -/
theorem deleteFromVectorDB_never_raises (a : Adapter) (d : String) :
    (deleteFromVectorDB a d).1 = Except.ok () := by
  unfold deleteFromVectorDB
  rcases h : deleteFromVectorDBBody a d with ⟨r, t⟩
  cases r <;> simp

/-- C5: the adapter calls issued by `deleteFromVectorDB d` are exactly: one
empty-query search with filter `\x7bdocumentId: d\x7d` and topK 1000, followed —
if and only if that search succeeded with at least one record — by a
single delete of exactly the ids found. -/
theorem deleteFromVectorDB_trace (a : Adapter) (d : String) :
    (deleteFromVectorDB a d).2 =
      match a.searchResult "" 1000 (docFilter d) with
      | .error _ => [AdapterCall.search "" 1000 (docFilter d)]
      | .ok rs =>
        if rs = [] then [AdapterCall.search "" 1000 (docFilter d)]
        else [AdapterCall.search "" 1000 (docFilter d),
              AdapterCall.delete (rs.map (·.id))] := by
  unfold deleteFromVectorDB deleteFromVectorDBBody
  cases h : a.searchResult "" 1000 (docFilter d) with
  | error e => simp
  | ok rs =>
    cases rs with
    | nil => simp
    | cons r rest =>
      cases hd : a.deleteResult (r.id :: rest.map (·.id)) <;> simp [hd]

/-- C10: `storeInVectorDB` has no error branch of its own: its result is
exactly the adapter's answer to the one upsert it issues, that upsert
carries one record per chunk, and with zero chunks the batch is empty. -/
theorem storeInVectorDB_propagates_upsert (a : Adapter)
    (split : String → List String) (g : UuidGen) (d text : String) (m : Obj) :
    (storeInVectorDB a split g d text m).1 =
        a.upsertResult (mkDocuments g (split text) m).1 ∧
    (storeInVectorDB a split g d text m).2.1 =
        [AdapterCall.upsert (mkDocuments g (split text) m).1] ∧
    (split text = [] → (mkDocuments g (split text) m).1 = []) := by
  refine ⟨rfl, rfl, fun h => ?_⟩
  simp [mkDocuments, h, mkDocumentsGo]

/-- C10 witness: with a splitter producing no chunks and an accepting
adapter, the call returns normally after one upsert of the empty batch. -/
theorem storeInVectorDB_propagates_upsert_witness :
    (storeInVectorDB okAdapter (fun _ => []) ⟨0⟩ "doc1" "" []).1 =
        Except.ok () ∧
    (storeInVectorDB okAdapter (fun _ => []) ⟨0⟩ "doc1" "" []).2.1 =
        [AdapterCall.upsert []] := by
  have h := storeInVectorDB_propagates_upsert okAdapter (fun _ => []) ⟨0⟩
    "doc1" "" []
  exact ⟨h.1, by rw [h.2.1, h.2.2 rfl]⟩

/-- C3 counterexample: on input whose chunking yields zero chunks,
`storeInVectorDB` does not fail with `EmptyDocumentError` — it returns
normally — and it performs one upsert (of an empty batch), not zero. -/
theorem storeInVectorDB_empty_cex :
    (storeInVectorDB okAdapter (fun _ => []) ⟨0⟩ "doc9" "" []).1 =
        Except.ok () ∧
    (storeInVectorDB okAdapter (fun _ => []) ⟨0⟩ "doc9" "" []).1 ≠
        Except.error VSError.emptyDocument ∧
    (storeInVectorDB okAdapter (fun _ => []) ⟨0⟩ "doc9" "" []).2.1 =
        [AdapterCall.upsert []] := by
  refine ⟨rfl, ?_, rfl⟩
  intro h
  cases h

/-- C3 (amended): when chunking yields zero chunks, `storeInVectorDB` does
not fail fast — it issues exactly one upsert carrying an empty batch and
returns whatever the adapter answers for that empty upsert. -/
theorem storeInVectorDB_empty_no_fail_fast (a : Adapter)
    (split : String → List String) (g : UuidGen) (d text : String) (m : Obj)
    (h : split text = []) :
    (storeInVectorDB a split g d text m).1 = a.upsertResult [] ∧
    (storeInVectorDB a split g d text m).2.1 = [AdapterCall.upsert []] := by
  constructor <;> simp [storeInVectorDB, mkDocuments, h, mkDocumentsGo]

/-- C3 (amended) witness at a concrete empty input. -/
theorem storeInVectorDB_empty_no_fail_fast_witness :
    (storeInVectorDB okAdapter (fun _ => []) ⟨5⟩ "docX" "" []).1 =
        okAdapter.upsertResult [] ∧
    (storeInVectorDB okAdapter (fun _ => []) ⟨5⟩ "docX" "" []).2.1 =
        [AdapterCall.upsert []] :=
  storeInVectorDB_empty_no_fail_fast okAdapter (fun _ => []) ⟨5⟩ "docX" "" []
    rfl

/-- C1: the filter `searchVectorStore` hands the adapter maps `userId` to
the caller's userId even when the extra filter carries its own `userId`
binding, and against any filter-respecting adapter every returned record
carries that userId in its metadata. -/
theorem searchVectorStore_userId_scoped (a : Adapter) (q u : String) (k : Nat)
    (f : Option Obj) (ha : FilterRespecting a) :
    Obj.get (sentFilter u f) "userId" = some (MVal.str u) ∧
    ∀ rs, (searchVectorStore a q u k f).1 = .ok rs →
      ∀ r ∈ rs, Obj.get r.metadata "userId" = some (MVal.str u) := by
  have hget : Obj.get (sentFilter u f) "userId" = some (MVal.str u) := by
    simp [sentFilter, Obj.get]
  refine ⟨hget, fun rs h r hr => ?_⟩
  exact ha q k (sentFilter u f) rs h r hr "userId" (MVal.str u) hget

/-- C1 witness: a caller-supplied filter that tries to set
`userId: "mallory"` is overridden by the injected `"alice"`. -/
theorem searchVectorStore_userId_scoped_witness :
    Obj.get (sentFilter "alice" (some [("userId", MVal.str "mallory")]))
        "userId" = some (MVal.str "alice") ∧
    ∀ rs, (searchVectorStore okAdapter "q" "alice" 5
        (some [("userId", MVal.str "mallory")])).1 = .ok rs →
      ∀ r ∈ rs, Obj.get r.metadata "userId" = some (MVal.str "alice") :=
  searchVectorStore_userId_scoped okAdapter "q" "alice" 5
    (some [("userId", MVal.str "mallory")]) okAdapter_filterRespecting

/-- C9: a `searchVectorStore` call issues exactly one adapter search and
its result is exactly the adapter's answer to that search — the core adds
no cache and no nondeterminism — so two calls with identical arguments
against an unchanged store (any two adapters agreeing on that one query)
yield identical ordered result sequences. -/
theorem searchVectorStore_deterministic (a1 a2 : Adapter) (q u : String)
    (k : Nat) (f : Option Obj)
    (h : a1.searchResult q k (sentFilter u f) =
         a2.searchResult q k (sentFilter u f)) :
    (searchVectorStore a1 q u k f).1 = (searchVectorStore a2 q u k f).1 ∧
    (searchVectorStore a1 q u k f).2 =
        [AdapterCall.search q k (sentFilter u f)] := by
  exact ⟨by simp [searchVectorStore, h], rfl⟩

/-- C9 witness: two calls with identical arguments on the same adapter. -/
theorem searchVectorStore_deterministic_witness :
    (searchVectorStore okAdapter "hello" "u1" 5 none).1 =
        (searchVectorStore okAdapter "hello" "u1" 5 none).1 ∧
    (searchVectorStore okAdapter "hello" "u1" 5 none).2 =
        [AdapterCall.search "hello" 5 (sentFilter "u1" none)] :=
  searchVectorStore_deterministic okAdapter okAdapter "hello" "u1" 5 none rfl

/-- The record at position `i` of the prepared batch: id `counter + i`,
the `i`-th chunk as content, metadata for map index `j + i`. -/
lemma mkDocumentsGo_get? (m : Obj) :
    ∀ (chunks : List String) (c total j i : Nat),
      (mkDocumentsGo c total m j chunks).get? i =
        (chunks.get? i).map (fun chunk =>
          { id := c + i, content := chunk,
            metadata := chunkMetadata m (j + i) total }) := by
  intro chunks
  induction chunks with
  | nil => intro c total j i; simp [mkDocumentsGo]
  | cons ch rest ih =>
    intro c total j i
    cases i with
    | zero => simp [mkDocumentsGo]
    | succ i =>
      simp only [mkDocumentsGo, List.get?]
      rw [ih (c + 1) total (j + 1) i]
      cases hr : rest.get? i <;> simp [Nat.add_comm, Nat.add_left_comm]

/-- Every id in the prepared batch lies in the consumed counter range. -/
lemma mkDocumentsGo_id_bounds (m : Obj) :
    ∀ (chunks : List String) (c total j : Nat),
      ∀ r ∈ mkDocumentsGo c total m j chunks,
        c ≤ r.id ∧ r.id < c + chunks.length := by
  intro chunks
  induction chunks with
  | nil => intro c total j r hr; simp [mkDocumentsGo] at hr
  | cons ch rest ih =>
    intro c total j r hr
    simp only [mkDocumentsGo, List.mem_cons] at hr
    rcases hr with h | h
    · subst h
      refine ⟨Nat.le_refl c, ?_⟩
      simp only [List.length_cons]
      omega
    · have := ih (c + 1) total (j + 1) r h
      simp only [List.length_cons]
      omega

/-- C6: the metadata of the `i`-th record `storeInVectorDB` prepares is
`chunkMetadata m i chunks.length`: it binds `chunkIndex` to the chunk's
position and `totalChunks` to the number of chunks, and on every other
key — including `userId` and `documentId` — it looks up exactly the
caller-supplied metadata: the pipeline injects nothing else. -/
theorem mkDocuments_metadata (g : UuidGen) (chunks : List String) (m : Obj)
    (i : Nat) (chunk : String) (h : chunks.get? i = some chunk) :
    ((mkDocuments g chunks m).1.map (·.metadata)).get? i =
        some (chunkMetadata m i chunks.length) ∧
    Obj.get (chunkMetadata m i chunks.length) "chunkIndex" =
        some (MVal.num i) ∧
    Obj.get (chunkMetadata m i chunks.length) "totalChunks" =
        some (MVal.num chunks.length) ∧
    ∀ k, k ≠ "chunkIndex" → k ≠ "totalChunks" →
      Obj.get (chunkMetadata m i chunks.length) k = Obj.get m k := by
  refine ⟨?_, by simp [chunkMetadata, Obj.get], by simp [chunkMetadata, Obj.get],
    fun k hk1 hk2 => ?_⟩
  · rw [List.get?_map, mkDocuments, mkDocumentsGo_get?, h]
    simp
  · simp [chunkMetadata, Obj.get, Ne.symm hk1, Ne.symm hk2]

/-- C6 witness: second chunk of a two-chunk batch with caller metadata
`\x7bfilename: "a.pdf"\x7d`; nothing maps `userId` unless the caller put it
there. -/
theorem mkDocuments_metadata_witness :
    ((mkDocuments ⟨0⟩ ["aa", "bb"] [("filename", MVal.str "a.pdf")]).1.map
        (·.metadata)).get? 1 =
      some (chunkMetadata [("filename", MVal.str "a.pdf")] 1 2) ∧
    Obj.get (chunkMetadata [("filename", MVal.str "a.pdf")] 1 2) "chunkIndex" =
        some (MVal.num 1) ∧
    Obj.get (chunkMetadata [("filename", MVal.str "a.pdf")] 1 2) "totalChunks" =
        some (MVal.num 2) ∧
    ∀ k, k ≠ "chunkIndex" → k ≠ "totalChunks" →
      Obj.get (chunkMetadata [("filename", MVal.str "a.pdf")] 1 2) k =
        Obj.get [("filename", MVal.str "a.pdf")] k :=
  mkDocuments_metadata ⟨0⟩ ["aa", "bb"] [("filename", MVal.str "a.pdf")] 1
    "bb" rfl

/-- C6 counterexample: the records `storeInVectorDB` upserts do not carry
the claimed injected `userId` and `documentId` keys: with caller metadata
`\x7bfilename: "a.pdf"\x7d` the first record's metadata has no `userId` and no
`documentId` binding, although the call names documentId `"doc1"`. -/
theorem storeInVectorDB_metadata_cex :
    ((storeInVectorDB okAdapter (fun _ => ["hello"]) ⟨0⟩ "doc1" "hello"
        [("filename", MVal.str "a.pdf")]).2.1) =
      [AdapterCall.upsert [⟨0, "hello",
        [("chunkIndex", MVal.num 0), ("totalChunks", MVal.num 1),
         ("filename", MVal.str "a.pdf")]⟩]] ∧
    Obj.get [("chunkIndex", MVal.num 0), ("totalChunks", MVal.num 1),
             ("filename", MVal.str "a.pdf")] "userId" = none ∧
    Obj.get [("chunkIndex", MVal.num 0), ("totalChunks", MVal.num 1),
             ("filename", MVal.str "a.pdf")] "documentId" = none := by
  refine ⟨rfl, by simp [Obj.get], by simp [Obj.get]⟩

/-- C7: chunk-record ids are drawn from the fresh-id supply alone: the
whole call is independent of the documentId argument, and a second
ingestion (of the same or another document) continuing from the returned
supply shares no id with the first batch. -/
theorem storeInVectorDB_fresh_ids (a : Adapter) (split : String → List String)
    (g : UuidGen) (d d2 text : String) (m : Obj) (text2 : String) (m2 : Obj) :
    storeInVectorDB a split g d text m = storeInVectorDB a split g d2 text m ∧
    ∀ r r', r ∈ (mkDocuments g (split text) m).1 →
      r' ∈ (mkDocuments (storeInVectorDB a split g d text m).2.2
              (split text2) m2).1 →
      r.id ≠ r'.id := by
  refine ⟨rfl, fun r r' hr hr' => ?_⟩
  have h1 := mkDocumentsGo_id_bounds m (split text) g.counter
    (split text).length 0 r hr
  have h2 := mkDocumentsGo_id_bounds m2 (split text2)
    (g.counter + (split text).length) (split text2).length 0 r' hr'
  omega

/-- C7 witness: one-chunk ingestions under different documentIds produce
the same records, and a re-ingestion gets a disjoint id. -/
theorem storeInVectorDB_fresh_ids_witness :
    storeInVectorDB okAdapter (fun _ => ["x"]) ⟨0⟩ "docA" "x" [] =
        storeInVectorDB okAdapter (fun _ => ["x"]) ⟨0⟩ "docB" "x" [] ∧
    ∀ r r', r ∈ (mkDocuments ⟨0⟩ ((fun (_ : String) => ["x"]) "x") []).1 →
      r' ∈ (mkDocuments (storeInVectorDB okAdapter (fun _ => ["x"]) ⟨0⟩
              "docA" "x" []).2.2 ((fun (_ : String) => ["x"]) "x") []).1 →
      r.id ≠ r'.id :=
  storeInVectorDB_fresh_ids okAdapter (fun _ => ["x"]) ⟨0⟩ "docA" "docB" "x"
    [] "x" []

/-- The rollback filter, run over pairs numbered from `n` with the cutoff
index pointing at the final user message, removes exactly that message. -/
lemma removeOrphan_enumFrom (q : String) :
    ∀ (ms : List ChatMsg) (n : Nat),
      ((List.enumFrom n (ms ++ [⟨Role.user, q, []⟩])).filter
          (fun p => !(isOrphanHit q (n + ms.length) p))).map Prod.snd = ms := by
  intro ms
  induction ms with
  | nil =>
    intro n
    simp [List.enumFrom, isOrphanHit, List.filter]
  | cons m ms ih =>
    intro n
    have hlast : isOrphanHit q (n + (m :: ms).length) (n, m) = false := by
      simp only [isOrphanHit, Bool.and_eq_false_iff]
      right
      simp only [List.length_cons, beq_eq_false_iff_ne, ne_eq]
      omega
    have hshift : n + (m :: ms).length = (n + 1) + ms.length := by
      simp only [List.length_cons]
      omega
    simp only [List.cons_append, List.enumFrom, List.filter, hlast,
      Bool.not_false, List.map_cons]
    rw [hshift]
    exact congrArg (List.cons m) (ih (n + 1))

/-- Rolling back after appending the user message restores the previous
list: only the last index can be removed by the filter, and the message
there is exactly the just-appended user question. -/
lemma removeOrphan_append (q : String) (ms : List ChatMsg) :
    removeOrphan q (ms ++ [⟨Role.user, q, []⟩]) = ms := by
  unfold removeOrphan
  have hlen : (ms ++ [(⟨Role.user, q, []⟩ : ChatMsg)]).length - 1 =
      0 + ms.length := by
    simp
  rw [hlen]
  have henum : (ms ++ [(⟨Role.user, q, []⟩ : ChatMsg)]).enum =
      List.enumFrom 0 (ms ++ [⟨Role.user, q, []⟩]) := rfl
  rw [henum, removeOrphan_enumFrom]

/-- C4: when a chat is active and the send mutation fails, `handleSubmit`
removes the user message it appended: the resulting `messages` state is
exactly the pre-call state, leaving no question without an answer. -/
theorem handleSubmit_rollback (st : UIState) (q newId : String) (e : VSError)
    (cid : String) (h : st.currentChatId = some cid) :
    handleSubmit st q newId (Except.error e) =
      { messages := st.messages, currentChatId := some cid } := by
  simp [handleSubmit, h, removeOrphan_append]

/-- C4 witness: a failed send on a chat holding one exchange leaves the
two persisted messages untouched. -/
theorem handleSubmit_rollback_witness :
    handleSubmit
        ⟨[⟨Role.user, "hi", []⟩, ⟨Role.assistant, "hello", []⟩], some "c1"⟩
        "why" "newId" (Except.error VSError.generation) =
      ⟨[⟨Role.user, "hi", []⟩, ⟨Role.assistant, "hello", []⟩], some "c1"⟩ :=
  handleSubmit_rollback
    ⟨[⟨Role.user, "hi", []⟩, ⟨Role.assistant, "hello", []⟩], some "c1"⟩
    "why" "newId" VSError.generation "c1" rfl

/-- Reassembly inverts chunking (strong induction on a length bound). -/
lemma splitText_reassemble_aux (chunkSize chunkOverlap : Nat)
    (h : chunkOverlap < chunkSize) :
    ∀ (n : Nat) (text : List Char), text.length ≤ n →
      reassemble chunkOverlap (splitText chunkSize chunkOverlap text) =
        text := by
  intro n
  induction n with
  | zero =>
    intro text ht
    have htext : text = [] := List.eq_nil_of_length_eq_zero (Nat.le_zero.mp ht)
    subst htext
    rw [splitText]
    simp [reassemble]
  | succ n ih =>
    intro text ht
    rw [splitText]
    split_ifs with h1 hE h2
    · simp only [reassemble]
      exact (List.isEmpty_iff.mp hE).symm
    · simp [reassemble, dropOverlapJoin]
    · omega
    · have hlen : chunkSize < text.length := Nat.lt_of_not_le h1
      have hune : text.drop (chunkSize - chunkOverlap) ≠ [] := by
        intro hnil
        have := congrArg List.length hnil
        rw [List.length_drop] at this
        simp at this
        omega
      simp only [reassemble]
      rw [splitText]
      split_ifs with g1 gE
      · exact absurd (List.isEmpty_iff.mp gE) hune
      · simp only [dropOverlapJoin, List.append_nil]
        have hdd : (text.drop (chunkSize - chunkOverlap)).drop chunkOverlap =
            text.drop chunkSize := by
          rw [List.drop_drop]
          congr 1
          omega
        rw [hdd, List.take_append_drop]
      · have hu := ih (text.drop (chunkSize - chunkOverlap)) (by
          rw [List.length_drop]
          omega)
        rw [splitText, dif_neg g1, dif_neg h2] at hu
        simp only [reassemble] at hu
        have hX : dropOverlapJoin chunkOverlap
            (splitText chunkSize chunkOverlap
              ((text.drop (chunkSize - chunkOverlap)).drop
                (chunkSize - chunkOverlap))) =
            (text.drop (chunkSize - chunkOverlap)).drop chunkSize :=
          List.append_cancel_left
            (hu.trans (List.take_append_drop chunkSize _).symm)
        simp only [dropOverlapJoin]
        rw [hX]
        have e1 : ((text.drop (chunkSize - chunkOverlap)).take
            chunkSize).drop chunkOverlap =
            (text.drop chunkSize).take (chunkSize - chunkOverlap) := by
          rw [List.drop_take, List.drop_drop]
          congr 2
          omega
        have e2 : (text.drop (chunkSize - chunkOverlap)).drop chunkSize =
            (text.drop chunkSize).drop (chunkSize - chunkOverlap) := by
          rw [List.drop_drop, List.drop_drop]
          congr 1
          omega
        rw [e1, e2, List.take_append_drop, List.take_append_drop]

/-- No produced chunk is longer than the configured chunk size. -/
lemma splitText_chunk_le_aux (chunkSize chunkOverlap : Nat)
    (h : chunkOverlap < chunkSize) :
    ∀ (n : Nat) (text : List Char), text.length ≤ n →
      ∀ c ∈ splitText chunkSize chunkOverlap text, c.length ≤ chunkSize := by
  intro n
  induction n with
  | zero =>
    intro text ht c hc
    have htext : text = [] := List.eq_nil_of_length_eq_zero (Nat.le_zero.mp ht)
    subst htext
    rw [splitText] at hc
    simp at hc
  | succ n ih =>
    intro text ht c hc
    rw [splitText] at hc
    split_ifs at hc with h1 hE h2
    · simp at hc
    · simp only [List.mem_singleton] at hc
      subst hc
      exact h1
    · omega
    · simp only [List.mem_cons] at hc
      rcases hc with rfl | hc
      · rw [List.length_take]
        exact Nat.min_le_left _ _
      · refine ih (text.drop (chunkSize - chunkOverlap)) ?_ c hc
        rw [List.length_drop]
        omega

/-- C8 (spec-modelled chunker): splitting preserves document order — the
first chunk in full followed by each later chunk minus the shared overlap
reassembles exactly the original text — and no chunk exceeds the
configured maximum size. -/
theorem splitText_spec (chunkSize chunkOverlap : Nat) (text : List Char)
    (h : chunkOverlap < chunkSize) :
    reassemble chunkOverlap (splitText chunkSize chunkOverlap text) = text ∧
    ∀ c ∈ splitText chunkSize chunkOverlap text, c.length ≤ chunkSize :=
  ⟨splitText_reassemble_aux chunkSize chunkOverlap h text.length text
      (Nat.le_refl _),
   splitText_chunk_le_aux chunkSize chunkOverlap h text.length text
      (Nat.le_refl _)⟩

/-- C8 witness: chunk size 5, overlap 2, on a concrete 11-character text. -/
theorem splitText_spec_witness :
    reassemble 2 (splitText 5 2 "hello world".toList) = "hello world".toList ∧
    ∀ c ∈ splitText 5 2 "hello world".toList, c.length ≤ 5 :=
  splitText_spec 5 2 "hello world".toList (by decide)

end FileAI
